import Mathlib

/-!
Verification of the video-frame OCR extractor against its specification.

The development shallowly embeds the three source files:
  - src/utils/videoUtils.ts      (frame sampler, `extractFramesFromVideo`)
  - src/services/geminiService.ts (phase A OCR collection, `analyzeFramesForText`)
  - the main application component (`getUniqueWords`, excluded-words state
    handlers, `downloadCsv`, localStorage load of the exclusion list)

JavaScript strings are modelled as Lean `String`s restricted to their
character data; `String.prototype.toLowerCase` is modelled per character by
core's `Char.toLower` (ASCII case mapping, the range the program works in),
`String.prototype.trim` by dropping `Char.isWhitespace` characters at both
ends, the regex `\b\w+\b` by splitting into maximal runs of `[A-Za-z0-9_]`
characters, the regex `^\d+$` by an all-digits check, and
`Array.prototype.sort()` (default string comparator, code-unit order) by an
insertion sort over code-point comparison, which agrees with the code-unit
comparator on the scalar values occurring here.
-/

namespace RoboOCR

/-! ## Character and string helpers (JS primitives used by the app) -/

/-- JS word character class `\w` = `[A-Za-z0-9_]` (the regexes in the app are
used without the unicode flag, so `\w` and `\d` are the ASCII classes). -/
def isWordChar (c : Char) : Bool := c.isAlphanum || c == '_'

/-- Lowercasing of a JS string, character by character (`toLowerCase`,
restricted to the ASCII mapping given by core's `Char.toLower`). -/
def lowerStr (s : String) : String := String.mk (s.data.map Char.toLower)

/-- Drop whitespace at both ends of a character list. -/
def trimL (l : List Char) : List Char :=
  ((l.dropWhile Char.isWhitespace).reverse.dropWhile Char.isWhitespace).reverse

/-- `String.prototype.trim`: drop whitespace from both ends. -/
def jsTrim (s : String) : String := String.mk (trimL s.data)

/-- Maximal runs of word characters in a character list; `cur` is the
(reversed) run currently being read.  This is the effect of
`allText.match(/\b\w+\b/g) || []`. -/
def tokensAux : List Char → List Char → List String
  | [], cur => if cur.isEmpty then [] else [String.mk cur.reverse]
  | c :: cs, cur =>
    if isWordChar c then tokensAux cs (c :: cur)
    else if cur.isEmpty then tokensAux cs []
    else String.mk cur.reverse :: tokensAux cs []

/-- Tokenization performed by `getUniqueWords`. -/
def tokenize (s : String) : List String := tokensAux s.data []

/-- The regex test `/^\d+$/.test(word)`: non-empty and all digits. -/
def isNumericStr (s : String) : Bool := !s.data.isEmpty && s.data.all Char.isDigit

/-- JS string comparison used by the default `Array.prototype.sort()`
comparator: lexicographic on code units. -/
def jsLeChars : List Char → List Char → Bool
  | [], _ => true
  | _ :: _, [] => false
  | a :: as, b :: bs =>
    if a < b then true
    else if b < a then false
    else jsLeChars as bs

/-- `a` sorts no later than `b` under the default JS comparator. -/
def jsLeStr (a b : String) : Bool := jsLeChars a.data b.data

/-- One insertion step of the sort modelling `Array.prototype.sort()`. -/
def insertSorted (x : String) : List String → List String
  | [] => [x]
  | y :: ys => if jsLeStr x y then x :: y :: ys else y :: insertSorted x ys

/-- `Array.prototype.sort()` with the default comparator (insertion sort; on
the pairwise-distinct lists produced by the app the result is the unique
ascending reordering, so the choice of algorithm is immaterial). -/
def jsSort (l : List String) : List String := l.foldr insertSorted []

/-- `Array.from(new Set(xs))`: first occurrences, in order; `seen` carries the
elements already emitted. -/
def dedupFirstAux (seen : List String) : List String → List String
  | [] => []
  | x :: xs =>
    if x ∈ seen then dedupFirstAux seen xs
    else x :: dedupFirstAux (x :: seen) xs

/-- `Array.from(new Set(xs))` for a string array. -/
def dedupFirst (l : List String) : List String := dedupFirstAux [] l

/-! ## Frame sampler (src/utils/videoUtils.ts)

`extractFramesFromVideo` is event-driven: after `loadedmetadata` it seeks to
`Math.floor(startTime)`, and every `seeked` event runs `captureFrame`, which
rasterizes the current position, pushes a frame, and either seeks to the next
integer second (when `currentTime <= endTime` after the increment) or revokes
the object URL and resolves.  The embedding assumes the metadata and `seeked`
signals each fire exactly once per request (the claims' stated assumption) and
makes the remaining run a recursion on the integer seek position.

External effects are made explicit:
  - `render t` stands for `canvas.toDataURL('image/jpeg', 0.8)` after drawing
    the video at position `t` (a pure, unobservable payload);
  - `ctx` says whether `canvas.getContext('2d')` returned a context;
  - `mediaOk` says whether the media loads (`false` fires the `error` event
    instead of `loadedmetadata`);
  - `revokes` counts the calls to `URL.revokeObjectURL(videoUrl)` performed
    during the run.
-/

/-- A captured frame (`types.ts`): integer second plus encoded image. -/
structure Frame where
  id : ℤ
  imageDataUrl : String
deriving DecidableEq, Repr

/-- Outcome of one extraction run: the settled promise value plus how many
times the backing object URL was revoked. -/
structure RunResult where
  outcome : Except String (List Frame)
  revokes : ℕ

/-- The `seeked`-event loop of `extractFramesFromVideo`, entered at seek
position `c` with frames `acc` accumulated so far.  Mirrors `captureFrame`:
reject if the canvas context is unavailable, otherwise capture, advance by
one second, and continue while `currentTime <= endTime`; on exit revoke the
URL and resolve. -/
def captureLoop (render : ℤ → String) (ctx : Bool) (endTime : ℚ) (c : ℤ)
    (acc : List Frame) : RunResult :=
  if ctx = false then
    { outcome := Except.error "Canvas context is not available.", revokes := 0 }
  else
    let acc2 := acc ++ [{ id := c, imageDataUrl := render c }]
    if h : ((c : ℚ) + 1) ≤ endTime then
      captureLoop render ctx endTime (c + 1) acc2
    else
      { outcome := Except.ok acc2, revokes := 1 }
termination_by (⌊endTime⌋ + 1 - c).toNat
decreasing_by
  have hfl : c + 1 ≤ ⌊endTime⌋ := Int.le_floor.mpr (by push_cast; exact h)
  omega

/-- `extractFramesFromVideo(videoFile, startTime, endTime, onProgress)`.
If the media fails to load, the `error` handler revokes the URL and rejects;
otherwise `loadedmetadata` starts the seek loop at `Math.floor(startTime)`. -/
def extractFramesFromVideo (render : ℤ → String) (ctx mediaOk : Bool)
    (startTime endTime : ℚ) : RunResult :=
  if mediaOk = false then
    { outcome := Except.error "Error loading video: Unknown error", revokes := 1 }
  else
    captureLoop render ctx endTime ⌊startTime⌋ []

/-- The frame whose id is the integer second `t`. -/
def frameAt (render : ℤ → String) (t : ℤ) : Frame :=
  { id := t, imageDataUrl := render t }

/-- The `k` frames at seconds `c, c+1, ..., c+k-1`. -/
def framesFrom (render : ℤ → String) (c : ℤ) (k : ℕ) : List Frame :=
  (List.range k).map (fun (i : ℕ) => frameAt render (c + (i : ℤ)))

theorem framesFrom_succ (render : ℤ → String) (c : ℤ) (k : ℕ) :
    framesFrom render c (k + 1) = frameAt render c :: framesFrom render (c + 1) k := by
  unfold framesFrom
  rw [List.range_succ_eq_map, List.map_cons, List.map_map]
  congr 1
  · simp
  · apply List.map_congr_left
    intro i _
    simp only [Function.comp_apply]
    congr 1
    push_cast
    ring

theorem framesFrom_one (render : ℤ → String) (c : ℤ) :
    framesFrom render c 1 = [frameAt render c] := by
  unfold framesFrom
  simp [List.range_succ]

/-- If the seek loop is entered with no canvas context, the promise is
rejected at once and the URL is never revoked. -/
theorem captureLoop_no_ctx (render : ℤ → String) (endTime : ℚ) (c : ℤ)
    (acc : List Frame) :
    captureLoop render false endTime c acc =
      { outcome := Except.error "Canvas context is not available.", revokes := 0 } := by
  rw [captureLoop]
  simp

/-- With a canvas context available, the seek loop captures exactly the
integer seconds from its entry position `c` through `⌊endTime⌋` (at least
one frame even when `⌊endTime⌋ < c`), revoking the URL exactly once. -/
theorem captureLoop_ctx_ok (render : ℤ → String) (endTime : ℚ) :
    ∀ (n : ℕ) (c : ℤ) (acc : List Frame), (⌊endTime⌋ + 1 - c).toNat ≤ n →
    captureLoop render true endTime c acc =
      { outcome := Except.ok (acc ++ framesFrom render c ((⌊endTime⌋ - c).toNat + 1)),
        revokes := 1 } := by
  intro n
  induction n with
  | zero =>
    intro c acc hn
    have hnot : ¬ ((c : ℚ) + 1) ≤ endTime := by
      intro hle
      have : c + 1 ≤ ⌊endTime⌋ := Int.le_floor.mpr (by push_cast; exact hle)
      omega
    have h0 : (⌊endTime⌋ - c).toNat = 0 := by omega
    rw [captureLoop]
    rw [h0, framesFrom_one]
    simp [hnot, frameAt]
  | succ n ih =>
    intro c acc hn
    rw [captureLoop]
    by_cases hle : ((c : ℚ) + 1) ≤ endTime
    · have hfl : c + 1 ≤ ⌊endTime⌋ := Int.le_floor.mpr (by push_cast; exact hle)
      have hrec := ih (c + 1) (acc ++ [{ id := c, imageDataUrl := render c }]) (by omega)
      simp only [hle, dif_pos, if_neg (by simp : ¬ (true = false))]
      rw [hrec]
      have hcount : (⌊endTime⌋ - c).toNat + 1 = ((⌊endTime⌋ - (c + 1)).toNat + 1) + 1 := by
        omega
      rw [hcount, framesFrom_succ render c ((⌊endTime⌋ - (c + 1)).toNat + 1)]
      simp [frameAt]
    · have h0 : (⌊endTime⌋ - c).toNat = 0 := by
        have : ⌊endTime⌋ < c + 1 := Int.floor_lt.mpr (by push_cast; exact lt_of_not_le hle)
        omega
      rw [h0, framesFrom_one]
      simp [hle, frameAt]

/-! ## Claims C1, C2, C3 — the frame sampler -/

/-- Claim C1: for every valid interval with `start < end`
(`0 <= start <= end <= duration`), assuming the metadata and per-seek
`seeked` signals fire once per seek, the sampler resolves with exactly
`⌊end⌋ - ⌊start⌋ + 1` frames whose `id`s are the contiguous, strictly
increasing integers starting at `⌊start⌋`. -/
theorem sampler_contiguous_ids (render : ℤ → String)
    (startTime endTime duration : ℚ)
    (h0 : 0 ≤ startTime) (h1 : startTime < endTime) (h2 : endTime ≤ duration) :
    ∃ frames : List Frame,
      (extractFramesFromVideo render true true startTime endTime).outcome
          = Except.ok frames ∧
      (frames.length : ℤ) = ⌊endTime⌋ - ⌊startTime⌋ + 1 ∧
      ∀ (i : ℕ) (hi : i < frames.length),
        (frames.get ⟨i, hi⟩).id = ⌊startTime⌋ + i := by
  have hfl : ⌊startTime⌋ ≤ ⌊endTime⌋ := Int.floor_le_floor h1.le
  refine ⟨framesFrom render ⌊startTime⌋ ((⌊endTime⌋ - ⌊startTime⌋).toNat + 1),
    ?_, ?_, ?_⟩
  · unfold extractFramesFromVideo
    rw [if_neg (by simp),
      captureLoop_ctx_ok render endTime ((⌊endTime⌋ + 1 - ⌊startTime⌋).toNat)
        ⌊startTime⌋ [] (le_refl _)]
    simp
  · unfold framesFrom
    simp only [List.length_map, List.length_range]
    omega
  · intro i hi
    unfold framesFrom
    simp [List.get_eq_getElem, frameAt]

/-- Claim C1 witness: the interval `[0, 2]` of a video of duration 2. -/
theorem sampler_contiguous_ids_witness :
    ∃ frames : List Frame,
      (extractFramesFromVideo (fun _ => "") true true 0 2).outcome
          = Except.ok frames ∧
      (frames.length : ℤ) = ⌊(2 : ℚ)⌋ - ⌊(0 : ℚ)⌋ + 1 ∧
      ∀ (i : ℕ) (hi : i < frames.length),
        (frames.get ⟨i, hi⟩).id = ⌊(0 : ℚ)⌋ + i :=
  sampler_contiguous_ids (fun _ => "") 0 2 2 (by decide) (by decide) (by decide)

/-- Claim C2: for every valid interval with `start == end`, the sampler
resolves with exactly one frame, whose `id` is `⌊start⌋`. -/
theorem sampler_start_eq_end (render : ℤ → String) (s duration : ℚ)
    (h0 : 0 ≤ s) (h2 : s ≤ duration) :
    ∃ fr : Frame,
      (extractFramesFromVideo render true true s s).outcome = Except.ok [fr] ∧
      fr.id = ⌊s⌋ := by
  refine ⟨frameAt render ⌊s⌋, ?_, rfl⟩
  unfold extractFramesFromVideo
  rw [if_neg (by simp),
    captureLoop_ctx_ok render s ((⌊s⌋ + 1 - ⌊s⌋).toNat) ⌊s⌋ [] (le_refl _)]
  have h1 : (⌊s⌋ - ⌊s⌋).toNat + 1 = 1 := by omega
  rw [h1, framesFrom_one]
  simp

/-- Claim C2 witness: the degenerate interval `[3, 3]` of a video of
duration 3. -/
theorem sampler_start_eq_end_witness :
    ∃ fr : Frame,
      (extractFramesFromVideo (fun _ => "") true true 3 3).outcome
          = Except.ok [fr] ∧
      fr.id = ⌊(3 : ℚ)⌋ :=
  sampler_start_eq_end (fun _ => "") 3 3 (by decide) (by decide)

/-- Claim C3 counterexample: on the rasterization-surface-unavailable
rejection path (`getContext('2d')` returned null), the run terminates with
the rejection but the object URL is never revoked — not exactly once, as the
claim states. -/
theorem sampler_url_release_cex :
    (extractFramesFromVideo (fun _ => "") false true 0 0).outcome
        = Except.error "Canvas context is not available." ∧
    ¬ (extractFramesFromVideo (fun _ => "") false true 0 0).revokes = 1 := by
  have h := captureLoop_no_ctx (fun _ => "") 0 ⌊(0 : ℚ)⌋ []
  constructor
  · unfold extractFramesFromVideo
    rw [if_neg (by simp), h]
  · unfold extractFramesFromVideo
    rw [if_neg (by simp), h]
    simp

/-- Claim C3 (amended): the object-URL handle is released exactly once on
normal completion and on the media load/decode error path; on the
rasterization-surface-unavailable rejection it is not released at all (the
handle leaks). -/
theorem sampler_url_release_amended (render : ℤ → String) (ctx mediaOk : Bool)
    (startTime endTime : ℚ) :
    (extractFramesFromVideo render ctx mediaOk startTime endTime).revokes =
      if mediaOk = true ∧ ctx = false then 0 else 1 := by
  unfold extractFramesFromVideo
  cases mediaOk with
  | false => simp
  | true =>
    rw [if_neg (by simp)]
    cases ctx with
    | false =>
      rw [captureLoop_no_ctx]
      simp
    | true =>
      rw [captureLoop_ctx_ok render endTime ((⌊endTime⌋ + 1 - ⌊startTime⌋).toNat)
        ⌊startTime⌋ [] (le_refl _)]
      simp


/-! ## Phase A — OCR collection (src/services/geminiService.ts)

`analyzeFramesForText` walks the frames in order; for each frame it builds
the request from the frame's `imageDataUrl` and awaits the collaborator.  The
whole body of an iteration sits inside `try { ... } catch`, so any throw or
rejection (from `dataUrlToPart` or from the remote call) is caught, logged,
and the loop continues.  The collaborator (request building plus remote
call plus `response.text` access) is modelled as a function
`ocr : String → Except String String` from the frame's image payload to
either a returned text (the empty string standing for an empty or missing
`response.text`, which the truthiness test `if (text)` filters out) or a
thrown error. -/

/-- `analyzeFramesForText(frames, onProgress)`: sequential loop, appending
each non-empty successful response, skipping failed frames. -/
def analyzeFramesForText (ocr : String → Except String String) :
    List Frame → List String
  | [] => []
  | f :: fs =>
    match ocr f.imageDataUrl with
    | Except.ok t =>
      if t ≠ "" then t :: analyzeFramesForText ocr fs
      else analyzeFramesForText ocr fs
    | Except.error _ => analyzeFramesForText ocr fs

/-! ## Claims C4 and C8 — Phase A error handling and result contents -/

/-- Claim C4: for every frame sequence and collaborator behaviour, a frame
whose collaborator call fails is simply skipped: the batch result is the
same as if only the succeeding frames had been presented, so no failure
aborts the run and no collaborator error propagates out of Phase A (the
function is total and never rethrows); in particular a failure on frame 2 of
3 still yields the combined result of frames 1 and 3. -/
theorem analyze_skips_failures :
    (∀ (ocr : String → Except String String) (frames : List Frame),
      analyzeFramesForText ocr frames =
        analyzeFramesForText ocr
          (frames.filter (fun f => (ocr f.imageDataUrl).isOk))) ∧
    (∀ (ocr : String → Except String String) (f1 f2 f3 : Frame)
      (e t1 t3 : String),
      ocr f1.imageDataUrl = Except.ok t1 →
      ocr f2.imageDataUrl = Except.error e →
      ocr f3.imageDataUrl = Except.ok t3 →
      t1 ≠ "" → t3 ≠ "" →
      analyzeFramesForText ocr [f1, f2, f3] = [t1, t3]) := by
  constructor
  · intro ocr frames
    induction frames with
    | nil => rfl
    | cons f fs ih =>
      cases hocr : ocr f.imageDataUrl with
      | ok t =>
        simp [analyzeFramesForText, hocr, List.filter_cons, Except.isOk,
          Except.toBool, ih]
      | error e =>
        simp [analyzeFramesForText, hocr, List.filter_cons, Except.isOk,
          Except.toBool, ih]
  · intro ocr f1 f2 f3 e t1 t3 h1 h2 h3 ht1 ht3
    simp [analyzeFramesForText, h1, h2, h3, ht1, ht3]

/-- Claim C4 witness: a three-frame batch whose middle frame fails. -/
theorem analyze_skips_failures_witness :
    analyzeFramesForText
      (fun s => if s = "b" then Except.error "boom" else Except.ok s)
      [⟨0, "a"⟩, ⟨1, "b"⟩, ⟨2, "c"⟩] = ["a", "c"] :=
  analyze_skips_failures.2
    (fun s => if s = "b" then Except.error "boom" else Except.ok s)
    ⟨0, "a"⟩ ⟨1, "b"⟩ ⟨2, "c"⟩ "boom" "a" "c"
    (by rfl) (by rfl) (by rfl) (by decide) (by decide)

/-- Claim C8: Phase A returns exactly the non-empty successful responses, in
the order of their frames. -/
theorem analyze_exactly_successes (ocr : String → Except String String)
    (frames : List Frame) :
    analyzeFramesForText ocr frames = frames.filterMap (fun f =>
      match ocr f.imageDataUrl with
      | Except.ok t => if t = "" then none else some t
      | Except.error _ => none) := by
  induction frames with
  | nil => rfl
  | cons f fs ih =>
    cases hocr : ocr f.imageDataUrl with
    | ok t =>
      by_cases ht : t = "" <;>
        simp [analyzeFramesForText, hocr, List.filterMap_cons, ht, ih]
    | error e =>
      simp [analyzeFramesForText, hocr, List.filterMap_cons, ih]

/-! ## Main application component (unnamed source file)

The pure computations of the component: `getUniqueWords`, the excluded-words
initial-state loader, the excluded-words mutation handlers, and the CSV
download guard.  React state updates are modelled as functions from the old
state (plus the event payload) to the new state. -/

/-- `getUniqueWords(textBlocks, excluded)`: join with a space, tokenize with
`/\b\w+\b/g`, lowercase, drop purely numeric tokens and tokens in the
(case-insensitively built) excluded set, deduplicate preserving first
occurrence, and sort with the default comparator. -/
def getUniqueWords (textBlocks : List String) (excluded : List String) :
    List String :=
  let allText := String.intercalate " " textBlocks
  let words := tokenize allText
  let lowercasedWords := words.map lowerStr
  let excludedSet := excluded.map lowerStr
  let filteredWords := lowercasedWords.filter (fun word =>
    !isNumericStr word && !excludedSet.contains word)
  jsSort (dedupFirst filteredWords)

/-- `INITIAL_EXCLUDED_WORDS`, the built-in default exclusion list, verbatim
from the component (note: it is not sorted — `rank` through `roam` follow
`x`, `y`). -/
def INITIAL_EXCLUDED_WORDS : List String :=
  ["daily", "get", "guest", "host", "id", "join", "list", "live",
   "month", "monthly", "vip", "weekly", "x", "y", "rank", "ranked",
   "ream", "resting", "roam"]

/-- A parsed JSON value, as produced by `JSON.parse`. -/
inductive Json where
  | null : Json
  | bool (b : Bool) : Json
  | num (q : ℚ) : Json
  | str (s : String) : Json
  | arr (items : List Json) : Json
  | obj (fields : List (String × Json)) : Json

/-- `typeof item === 'string'` extraction for one array element. -/
def jsonAsStr : Json → Option String
  | Json.str s => some s
  | _ => none

/-- `Array.isArray(parsed) && parsed.every(item => typeof item === 'string')`
followed by returning `parsed`: all elements as strings, or `none` if any
element is not a string. -/
def jsonStrings : List Json → Option (List String)
  | [] => some []
  | j :: js =>
    match jsonAsStr j, jsonStrings js with
    | some s, some ss => some (s :: ss)
    | _, _ => none

/-- The `useState` initializer for `excludedWords`.  The stored value is
`none` when `localStorage.getItem` returned null, `some (Except.error ())`
when `JSON.parse` threw, and `some (Except.ok j)` when it parsed to `j`; the
parsed value is returned as-is when it is an array whose elements are all
strings, and everything else falls back to the default list.  (The `catch`
also covers a throwing storage read; that path likewise returns the
default.) -/
def loadExcludedWords (stored : Option (Except Unit Json)) : List String :=
  match stored with
  | some (Except.ok (Json.arr items)) =>
    match jsonStrings items with
    | some parsed => parsed
    | none => INITIAL_EXCLUDED_WORDS
  | some _ => INITIAL_EXCLUDED_WORDS
  | none => INITIAL_EXCLUDED_WORDS

/-- `handleAddExcludedWord`: trim and lowercase the input; add it (and
re-sort) only when non-empty and not already present. -/
def handleAddExcludedWord (excludedWords : List String)
    (newExcludedWord : String) : List String :=
  let wordToAdd := lowerStr (jsTrim newExcludedWord)
  if wordToAdd ≠ "" ∧ wordToAdd ∉ excludedWords then
    jsSort (excludedWords ++ [wordToAdd])
  else excludedWords

/-- `handleRemoveExcludedWord`: drop every occurrence of the word. -/
def handleRemoveExcludedWord (excludedWords : List String)
    (wordToRemove : String) : List String :=
  excludedWords.filter (fun word => word ≠ wordToRemove)

/-- `handleWordDoubleClick`: add the displayed word to the exclusion list
(re-sorting) unless already present, and remove it from the unique-word
list.  Returns the pair (new excluded words, new unique words). -/
def handleWordDoubleClick (excludedWords uniqueWords : List String)
    (wordToExclude : String) : List String × List String :=
  (if wordToExclude ∉ excludedWords then jsSort (excludedWords ++ [wordToExclude])
   else excludedWords,
   uniqueWords.filter (fun w => w ≠ wordToExclude))

/-- `downloadCsv`: `none` models the early `return` (no payload, no
download); otherwise the pair (csv data URI content before `encodeURI`,
download attribute). -/
def downloadCsv (uniqueWords : List String) : Option (String × String) :=
  if uniqueWords.length = 0 then none
  else
    some ("data:text/csv;charset=utf-8," ++ "Extracted Words\n"
            ++ String.intercalate "\n" uniqueWords,
          "extracted_words.csv")

/-! ## Permutation facts about the JS sort and dedup models -/

theorem insertSorted_perm (x : String) (l : List String) :
    List.Perm (insertSorted x l) (x :: l) := by
  induction l with
  | nil => exact List.Perm.refl _
  | cons y ys ih =>
    rw [insertSorted]
    by_cases h : jsLeStr x y = true
    · rw [if_pos h]
    · rw [if_neg h]
      exact (ih.cons y).trans (List.Perm.swap x y ys)

theorem jsSort_perm (l : List String) : List.Perm (jsSort l) l := by
  induction l with
  | nil => exact List.Perm.refl _
  | cons x xs ih =>
    exact (insertSorted_perm x (jsSort xs)).trans (ih.cons x)

theorem mem_jsSort {a : String} {l : List String} : a ∈ jsSort l ↔ a ∈ l :=
  (jsSort_perm l).mem_iff

theorem mem_dedupFirstAux {a : String} :
    ∀ (l seen : List String), a ∈ dedupFirstAux seen l ↔ a ∈ l ∧ a ∉ seen := by
  intro l
  induction l with
  | nil => simp [dedupFirstAux]
  | cons x xs ih =>
    intro seen
    rw [dedupFirstAux]
    by_cases hx : x ∈ seen
    · rw [if_pos hx, ih seen]
      constructor
      · exact fun ⟨h1, h2⟩ => ⟨List.mem_cons_of_mem x h1, h2⟩
      · rintro ⟨h1, h2⟩
        rcases List.mem_cons.mp h1 with rfl | h1
        · exact absurd hx h2
        · exact ⟨h1, h2⟩
    · rw [if_neg hx]
      constructor
      · intro h
        rcases List.mem_cons.mp h with rfl | h1
        · exact ⟨List.mem_cons_self _ _, hx⟩
        · obtain ⟨h2, h3⟩ := (ih (x :: seen)).mp h1
          exact ⟨List.mem_cons_of_mem x h2,
            fun hs => h3 (List.mem_cons_of_mem x hs)⟩
      · rintro ⟨h1, h2⟩
        rcases List.mem_cons.mp h1 with rfl | h3
        · exact List.mem_cons_self _ _
        · by_cases hax : a = x
          · subst hax
            exact List.mem_cons_self _ _
          · exact List.mem_cons_of_mem x ((ih (x :: seen)).mpr
              ⟨h3, fun hs => (List.mem_cons.mp hs).elim hax h2⟩)

theorem mem_dedupFirst {a : String} {l : List String} :
    a ∈ dedupFirst l ↔ a ∈ l := by
  unfold dedupFirst
  rw [mem_dedupFirstAux]
  simp

/-! ## Claims C5, C6 — normalization -/

/-- Claim C5: on text blocks `["Hello World", "hello 123"]` with an empty
excluded set, `getUniqueWords` returns exactly `["hello", "world"]`: tokens
lowercased, the all-digit token dropped, duplicates removed, output sorted
ascending. -/
theorem getUniqueWords_normalization_example :
    getUniqueWords ["Hello World", "hello 123"] [] = ["hello", "world"] := by
  decide

/-- Claim C6: every token matching an excluded word case-insensitively is
removed — no member of the output coincides with the lowercasing of any
excluded word — and concretely tokens `["vip", "score", "score"]` with
excluded set `{"vip"}` yield exactly `["score"]`. -/
theorem getUniqueWords_exclusion :
    (∀ (blocks excluded : List String) (e w : String),
      w ∈ getUniqueWords blocks excluded → e ∈ excluded → lowerStr e ≠ w) ∧
    getUniqueWords ["vip", "score", "score"] ["vip"] = ["score"] := by
  constructor
  · intro blocks excluded e w hw he
    simp only [getUniqueWords] at hw
    rw [mem_jsSort, mem_dedupFirst] at hw
    obtain ⟨hmem, hp⟩ := List.mem_filter.mp hw
    simp only [Bool.and_eq_true, Bool.not_eq_true', List.contains_eq_any_beq,
      List.any_eq_false] at hp
    intro heq
    exact hp.2 (lowerStr e) (List.mem_map_of_mem lowerStr he)
      (beq_iff_eq.mpr heq.symm)
  · decide

/-- Claim C6 witness: the excluded word `vip` does not survive into the
output of the concrete run. -/
theorem getUniqueWords_exclusion_witness : lowerStr "vip" ≠ "score" :=
  getUniqueWords_exclusion.1 ["vip", "score", "score"] ["vip"] "vip" "score"
    (by decide) (by decide)

/-! ## Claims C9, C10 — exclusion-list loading and CSV export -/

theorem jsonStrings_map_str (l : List String) :
    jsonStrings (l.map Json.str) = some l := by
  induction l with
  | nil => rfl
  | cons s ss ih => simp [jsonStrings, jsonAsStr, ih]

theorem jsonStrings_none (pre post : List Json) (x : Json)
    (hx : jsonAsStr x = none) :
    jsonStrings (pre ++ x :: post) = none := by
  induction pre with
  | nil => simp [jsonStrings, hx]
  | cons p ps ih =>
    cases hp : jsonAsStr p <;> simp [jsonStrings, hp, ih]

/-- Claim C9: loading the persisted exclusion list falls back to the
built-in default — without throwing — when the stored value is absent, when
`JSON.parse` throws, when the parsed value is not an array, and when it is
an array containing a non-string element; a parsed JSON array of strings is
returned as-is. -/
theorem loadExcludedWords_fallback :
    (loadExcludedWords none = INITIAL_EXCLUDED_WORDS) ∧
    (∀ e : Unit, loadExcludedWords (some (Except.error e))
        = INITIAL_EXCLUDED_WORDS) ∧
    (∀ j : Json, (∀ items, j ≠ Json.arr items) →
      loadExcludedWords (some (Except.ok j)) = INITIAL_EXCLUDED_WORDS) ∧
    (∀ (pre post : List Json) (x : Json), (∀ s, x ≠ Json.str s) →
      loadExcludedWords (some (Except.ok (Json.arr (pre ++ x :: post))))
        = INITIAL_EXCLUDED_WORDS) ∧
    (∀ l : List String,
      loadExcludedWords (some (Except.ok (Json.arr (l.map Json.str)))) = l) := by
  refine ⟨rfl, fun e => rfl, ?_, ?_, ?_⟩
  · intro j hj
    cases j with
    | arr items => exact absurd rfl (hj items)
    | null => rfl
    | bool b => rfl
    | num q => rfl
    | str s => rfl
    | obj fields => rfl
  · intro pre post x hx
    have hnone : jsonAsStr x = none := by
      cases x with
      | str s => exact absurd rfl (hx s)
      | null => rfl
      | bool b => rfl
      | num q => rfl
      | arr items => rfl
      | obj fields => rfl
    simp only [loadExcludedWords]
    rw [jsonStrings_none pre post x hnone]
  · intro l
    simp only [loadExcludedWords]
    rw [jsonStrings_map_str l]

/-- Claim C9 witness: a stored array with a numeric element falls back to
the default list, and a stored array of strings round-trips. -/
theorem loadExcludedWords_fallback_witness :
    loadExcludedWords (some (Except.ok (Json.arr [Json.num 3])))
        = INITIAL_EXCLUDED_WORDS ∧
    loadExcludedWords (some (Except.ok (Json.arr [Json.str "vip"]))) = ["vip"] :=
  ⟨loadExcludedWords_fallback.2.2.2.1 [] [] (Json.num 3)
      (fun s h => Json.noConfusion h),
   loadExcludedWords_fallback.2.2.2.2 ["vip"]⟩

/-- Claim C10: with an empty unique-word list `downloadCsv` does nothing —
no payload, no download — and exactly the non-empty lists produce a
download whose payload is the `Extracted Words` header line followed by one
word per line, named `extracted_words.csv`. -/
theorem downloadCsv_empty_guard :
    (∀ ws : List String, downloadCsv ws = none ↔ ws = []) ∧
    (∀ (w : String) (ws : List String),
      downloadCsv (w :: ws) =
        some ("data:text/csv;charset=utf-8," ++ "Extracted Words\n"
                ++ String.intercalate "\n" (w :: ws),
              "extracted_words.csv")) := by
  constructor
  · intro ws
    cases ws with
    | nil => simp [downloadCsv]
    | cons w ws => simp [downloadCsv]
  · intro w ws
    simp [downloadCsv]

/-! ## Claim C7 — the excluded-words invariant

Characterization of the ASCII case mapping and of whitespace, needed to show
that `handleAddExcludedWord` really inserts a lowercase, trimmed word. -/

theorem char_eq_iff_toNat {c d : Char} : c = d ↔ c.toNat = d.toNat :=
  ⟨fun h => h ▸ rfl, fun h => Char.ext (UInt32.ext h)⟩

theorem char_toNat_ofNat_valid {n : ℕ} (h : n.isValidChar) :
    (Char.ofNat n).toNat = n := by
  rw [Char.ofNat, dif_pos h]
  simp [Char.ofNatAux, Char.toNat, UInt32.toNat]

theorem toLower_of_not_upper {c : Char} (h : ¬(65 ≤ c.toNat ∧ c.toNat ≤ 90)) :
    Char.toLower c = c := by
  simp only [Char.toLower]
  rw [if_neg h]

theorem toLower_toNat_of_upper {c : Char} (h1 : 65 ≤ c.toNat)
    (h2 : c.toNat ≤ 90) : (Char.toLower c).toNat = c.toNat + 32 := by
  simp only [Char.toLower]
  rw [if_pos ⟨h1, h2⟩]
  exact char_toNat_ofNat_valid (Or.inl (by omega))

theorem toLower_idem (c : Char) :
    Char.toLower (Char.toLower c) = Char.toLower c := by
  by_cases h : 65 ≤ c.toNat ∧ c.toNat ≤ 90
  · have h32 := toLower_toNat_of_upper h.1 h.2
    apply toLower_of_not_upper
    omega
  · rw [toLower_of_not_upper h, toLower_of_not_upper h]

theorem isWhitespace_toNat {c : Char} (h : c.isWhitespace = true) :
    c.toNat = 32 ∨ c.toNat = 9 ∨ c.toNat = 13 ∨ c.toNat = 10 := by
  simp only [Char.isWhitespace, Bool.or_eq_true, decide_eq_true_eq] at h
  rcases h with ((rfl | rfl) | rfl) | rfl <;> decide

theorem not_whitespace_of_range {c : Char} (h1 : 65 ≤ c.toNat)
    (h2 : c.toNat ≤ 122) : c.isWhitespace = false := by
  cases hw : c.isWhitespace
  · rfl
  · exfalso
    rcases isWhitespace_toNat hw with h | h | h | h <;> omega

theorem toLower_isWhitespace (c : Char) :
    (Char.toLower c).isWhitespace = c.isWhitespace := by
  by_cases h : 65 ≤ c.toNat ∧ c.toNat ≤ 90
  · have h32 := toLower_toNat_of_upper h.1 h.2
    rw [not_whitespace_of_range (c := Char.toLower c) (by omega) (by omega),
        not_whitespace_of_range h.1 (by omega)]
  · rw [toLower_of_not_upper h]

theorem head?_dropWhile_false (p : Char → Bool) (l : List Char) :
    ∀ {c : Char}, (l.dropWhile p).head? = some c → p c = false := by
  induction l with
  | nil =>
    intro c h
    simp [List.dropWhile] at h
  | cons a as ih =>
    intro c h
    rw [List.dropWhile_cons] at h
    by_cases hp : p a = true
    · rw [if_pos hp] at h
      exact ih h
    · rw [if_neg hp] at h
      rw [List.head?_cons, Option.some.injEq] at h
      rw [← h]
      exact Bool.not_eq_true _ |>.mp hp

/-- No whitespace at an end of a list (the end given as `head?`/`getLast?`). -/
def okEdge : Option Char → Bool
  | some c => !c.isWhitespace
  | none => true

/-- Neither end of the character list is whitespace: the string is trimmed. -/
def noEdgeWs (l : List Char) : Bool := okEdge l.head? && okEdge l.getLast?

theorem noEdgeWs_trimL (l : List Char) : noEdgeWs (trimL l) = true := by
  unfold trimL noEdgeWs
  rw [List.head?_reverse, List.getLast?_reverse, Bool.and_eq_true]
  constructor
  · cases hBL : (((l.dropWhile Char.isWhitespace).reverse).dropWhile
        Char.isWhitespace).getLast? with
    | none => rfl
    | some c =>
      obtain ⟨pre, hpre⟩ :=
        List.dropWhile_suffix (l := (l.dropWhile Char.isWhitespace).reverse)
          Char.isWhitespace
      have hrev : ((l.dropWhile Char.isWhitespace).reverse).getLast? = some c := by
        rw [← hpre, List.getLast?_append, hBL]
        rfl
      rw [List.getLast?_reverse] at hrev
      simp [okEdge, head?_dropWhile_false Char.isWhitespace l hrev]
  · cases hBH : (((l.dropWhile Char.isWhitespace).reverse).dropWhile
        Char.isWhitespace).head? with
    | none => rfl
    | some c =>
      simp [okEdge, head?_dropWhile_false Char.isWhitespace _ hBH]

theorem noEdgeWs_map_toLower (l : List Char) :
    noEdgeWs (l.map Char.toLower) = noEdgeWs l := by
  unfold noEdgeWs
  rw [List.head?_map, List.getLast?_map]
  cases l.head? <;> cases l.getLast? <;>
    simp [okEdge, toLower_isWhitespace]

/-- `w.toLowerCase() === w`: every character is fixed by the case mapping. -/
def isLowercaseStr (s : String) : Bool :=
  s.data.all (fun c => Char.toLower c == c)

/-- A well-formed exclusion-list member: non-empty, trimmed, lowercase. -/
def isCanonicalWord (s : String) : Bool :=
  !(s == "") && noEdgeWs s.data && isLowercaseStr s

/-- Sorted ascending for the default `sort()` comparator. -/
def sortedAsc : List String → Bool
  | [] => true
  | [_] => true
  | a :: b :: rest => jsLeStr a b && sortedAsc (b :: rest)

/-- The claimed invariant of the excluded-words state: all members
lowercase, trimmed, non-empty; no duplicates; sorted. -/
def excludedWordsInvariant (l : List String) : Prop :=
  (∀ w ∈ l, isCanonicalWord w = true) ∧ l.Nodup ∧ sortedAsc l = true

/-- The part of the invariant that actually holds: canonical members, no
duplicates (sortedness fails for the built-in default list). -/
def excludedWordsBaseInv (l : List String) : Prop :=
  (∀ w ∈ l, isCanonicalWord w = true) ∧ l.Nodup

theorem isCanonicalWord_normalized (w : String)
    (hne : lowerStr (jsTrim w) ≠ "") :
    isCanonicalWord (lowerStr (jsTrim w)) = true := by
  unfold isCanonicalWord
  rw [Bool.and_eq_true, Bool.and_eq_true]
  refine ⟨⟨?_, ?_⟩, ?_⟩
  · simp [hne]
  · show noEdgeWs ((trimL w.data).map Char.toLower) = true
    rw [noEdgeWs_map_toLower, noEdgeWs_trimL]
  · show ((trimL w.data).map Char.toLower).all (fun c => Char.toLower c == c)
        = true
    rw [List.all_map]
    apply List.all_eq_true.mpr
    intro c _
    simp [Function.comp, toLower_idem]

theorem baseInv_insert (l : List String) (t : String)
    (hl : excludedWordsBaseInv l) (ht : isCanonicalWord t = true)
    (hmem : t ∉ l) : excludedWordsBaseInv (jsSort (l ++ [t])) := by
  constructor
  · intro w hw
    rw [mem_jsSort] at hw
    rcases List.mem_append.mp hw with h | h
    · exact hl.1 w h
    · rw [List.mem_singleton.mp h]
      exact ht
  · refine (jsSort_perm (l ++ [t])).nodup_iff.mpr ?_
    rw [List.nodup_append]
    refine ⟨hl.2, List.nodup_singleton t, ?_⟩
    intro a hal hat
    rw [List.mem_singleton.mp hat] at hal
    exact hmem hal

/-- Claim C7 counterexample: the state created from the built-in default
list violates the claimed invariant — `INITIAL_EXCLUDED_WORDS` is not
sorted (`"rank"` follows `"y"`), so the invariant fails already at
creation. -/
theorem excluded_invariant_cex :
    loadExcludedWords none = INITIAL_EXCLUDED_WORDS ∧
    ¬ excludedWordsInvariant (loadExcludedWords none) := by
  constructor
  · rfl
  · unfold excludedWordsInvariant
    decide

/-- Claim C7 (amended): after creation from the built-in default list, and
preserved by every mutation — add (which trims and lowercases its input),
remove, and double-click-to-exclude (whose input is a word of the normalized
unique-word list, so canonical) — every member of the excluded-words state
is lowercase, trimmed and non-empty, and the list has no duplicates.  The
list is, however, not always sorted (the default list is unsorted), and a
list loaded from storage is used as-is without canonicalization. -/
theorem excluded_invariant_amended :
    excludedWordsBaseInv (loadExcludedWords none) ∧
    (∀ (l : List String) (w : String), excludedWordsBaseInv l →
      excludedWordsBaseInv (handleAddExcludedWord l w)) ∧
    (∀ (l : List String) (w : String), excludedWordsBaseInv l →
      excludedWordsBaseInv (handleRemoveExcludedWord l w)) ∧
    (∀ (l u : List String) (w : String), excludedWordsBaseInv l →
      isCanonicalWord w = true →
      excludedWordsBaseInv (handleWordDoubleClick l u w).1) := by
  refine ⟨⟨by decide, by decide⟩, ?_, ?_, ?_⟩
  · intro l w hl
    simp only [handleAddExcludedWord]
    by_cases hc : lowerStr (jsTrim w) ≠ "" ∧ lowerStr (jsTrim w) ∉ l
    · rw [if_pos hc]
      exact baseInv_insert l _ hl (isCanonicalWord_normalized w hc.1) hc.2
    · rw [if_neg hc]
      exact hl
  · intro l w hl
    unfold handleRemoveExcludedWord
    constructor
    · intro v hv
      exact hl.1 v (List.mem_filter.mp hv).1
    · exact hl.2.filter _
  · intro l u w hl hw
    unfold handleWordDoubleClick
    by_cases hc : w ∉ l
    · simp only [if_pos hc]
      exact baseInv_insert l w hl hw hc
    · simp only [if_neg hc]
      exact hl

/-- Claim C7 witness: adding `" Score "` to the default state yields a
state of canonical members without duplicates. -/
theorem excluded_invariant_amended_witness :
    excludedWordsBaseInv
      (handleAddExcludedWord (loadExcludedWords none) " Score ") :=
  excluded_invariant_amended.2.1 (loadExcludedWords none) " Score "
    ⟨by decide, by decide⟩

/-- Claim C10 witness: a singleton word list produces the download payload. -/
theorem downloadCsv_empty_guard_witness :
    downloadCsv ["alpha"] =
      some ("data:text/csv;charset=utf-8," ++ "Extracted Words\n"
              ++ String.intercalate "\n" ["alpha"],
            "extracted_words.csv") :=
  downloadCsv_empty_guard.2 "alpha" []

end RoboOCR
